import Mathlib

/-!
Verification of the memento-mori date-facts calculator (`src/memento_mori.py`).

The program computes, from a birth date and today's date:
  * `get_age` — age in years, as `round(total_seconds / (365.2425*24*3600))`;
  * `get_remaining_lifespan` — a `{days, weeks, years}` record for the span
    from today to the birth date advanced by `life_expectancy` calendar years
    (via `dateutil.relativedelta`, which clamps Feb 29 to Feb 28 in non-leap
    years and raises when the resulting year falls below `date.MINYEAR = 1`);
  * `get_days_until_birthday` — whole days until the next occurrence of the
    birth month/day (Feb 29 birth dates use Feb 28 as substitute);
  * `show_message` — the rendered message lines.

Dates are modelled as plain (year, month, day) records over the proleptic
Gregorian calendar, exactly the model of Python's `datetime.date`:
`toordinal` mirrors CPython's `_ymd2ord`, date subtraction yields the ordinal
difference in whole days, `timedelta.total_seconds()` of such a difference is
`days * 86400`, and comparison of dates is lexicographic on (year, month, day).
Python's float arithmetic is modelled by exact rational arithmetic, and
Python 3's `round` by round-half-to-even (`roundHalfEven` below).
Fallible constructions (`datetime.date(y, m, d)` raising `ValueError` on an
invalid calendar date, `relativedelta` addition raising below year 1) are
modelled with `Option`.
-/

namespace MementoMori

/-- A proleptic Gregorian calendar date, as in Python's `datetime.date`. -/
structure Date where
  year : ℕ
  month : ℕ
  day : ℕ
deriving DecidableEq, Repr

/-- Gregorian leap-year test, as in `datetime._is_leap`. -/
def isleap (y : ℕ) : Bool :=
  y % 4 == 0 && (y % 100 != 0 || y % 400 == 0)

/-- Length of a month, as in `datetime._days_in_month`. -/
def daysInMonth (y m : ℕ) : ℕ :=
  match m with
  | 2 => if isleap y then 29 else 28
  | 4 => 30
  | 6 => 30
  | 9 => 30
  | 11 => 30
  | _ => 31

/-- Cumulative days before each month in a common year
(`datetime._DAYS_BEFORE_MONTH`). -/
def daysBeforeMonthBase : ℕ → ℕ
  | 1 => 0
  | 2 => 31
  | 3 => 59
  | 4 => 90
  | 5 => 120
  | 6 => 151
  | 7 => 181
  | 8 => 212
  | 9 => 243
  | 10 => 273
  | 11 => 304
  | 12 => 334
  | _ => 0

/-- Days in year `y` preceding the first of month `m`
(`datetime._days_before_month`). -/
def daysBeforeMonth (y m : ℕ) : ℕ :=
  daysBeforeMonthBase m + (if 2 < m ∧ isleap y then 1 else 0)

/-- Days before January 1 of year `y` (`datetime._days_before_year`). -/
def daysBeforeYear (y : ℕ) : ℕ :=
  365 * (y - 1) + (y - 1) / 4 - (y - 1) / 100 + (y - 1) / 400

/-- Proleptic Gregorian ordinal of a date, as in `date.toordinal`
(January 1 of year 1 is day 1). -/
def toordinal (d : Date) : ℕ :=
  daysBeforeYear d.year + daysBeforeMonth d.year d.month + d.day

/-- `(a - b).days` for Python dates: the signed ordinal difference. -/
def dateDiffDays (a b : Date) : ℤ :=
  (toordinal a : ℤ) - (toordinal b : ℤ)

/-- Validity of a (year, month, day) triple as a Python `datetime.date`.
Python additionally bounds the year above by `MAXYEAR = 9999`, a
representation limit we omit: the spec's data model is the unbounded
proleptic Gregorian calendar. The lower bound `MINYEAR = 1` is kept, since
the ordinal arithmetic starts at year 1. -/
def isValidDate (d : Date) : Prop :=
  1 ≤ d.year ∧ 1 ≤ d.month ∧ d.month ≤ 12 ∧ 1 ≤ d.day ∧ d.day ≤ daysInMonth d.year d.month

instance (d : Date) : Decidable (isValidDate d) := by
  unfold isValidDate; exact inferInstance

/-- The `datetime.date` constructor: `some` on a valid calendar date,
`none` where Python raises `ValueError`. -/
def mkDate (y m d : ℕ) : Option Date :=
  if isValidDate ⟨y, m, d⟩ then some ⟨y, m, d⟩ else none

/-- Python `date.__lt__`: lexicographic comparison on (year, month, day). -/
def dateLt (a b : Date) : Prop :=
  a.year < b.year ∨ (a.year = b.year ∧
    (a.month < b.month ∨ (a.month = b.month ∧ a.day < b.day)))

instance (a b : Date) : Decidable (dateLt a b) := by
  unfold dateLt; exact inferInstance

/-- Python 3's built-in `round` on an exact rational value:
round half to even. -/
def roundHalfEven (q : ℚ) : ℤ :=
  if q - ⌊q⌋ < 1 / 2 then ⌊q⌋
  else if 1 / 2 < q - ⌊q⌋ then ⌊q⌋ + 1
  else if ⌊q⌋ % 2 = 0 then ⌊q⌋ else ⌊q⌋ + 1

/-- `get_age` (src/memento_mori.py:24-33): the elapsed `timedelta` from the
birth date to today, its `total_seconds()` (= days * 86400) divided by
`365.2425 * 24 * 3600`, rounded.  `today` is an explicit parameter standing
for `date.today()`. -/
def get_age (date_of_birth today : Date) : ℤ :=
  roundHalfEven
    ((dateDiffDays today date_of_birth : ℚ) * 86400 /
      ((3652425 / 10000 : ℚ) * 24 * 3600))

/-- The `{"days", "weeks", "years"}` dict returned by
`get_remaining_lifespan`. -/
structure Remaining where
  days : ℤ
  weeks : ℤ
  years : ℤ
deriving DecidableEq, Repr

/-- `date + relativedelta(years=n)`: replace the year and clamp the day to
the length of the month in the new year (`dateutil` computes
`day = min(monthrange(year, month)[1], dt.day)`); `none` when the resulting
year falls below `date.MINYEAR = 1`, where `date.replace` raises. -/
def addYearsRelativedelta (d : Date) (n : ℤ) : Option Date :=
  let y : ℤ := (d.year : ℤ) + n
  if 1 ≤ y then
    some ⟨y.toNat, d.month, min d.day (daysInMonth y.toNat d.month)⟩
  else none

/-- `get_remaining_lifespan` (src/memento_mori.py:36-54): projected date of
death is the birth date advanced by `life_expectancy` years; `days` is the
ordinal difference to today, `weeks` is `round(days / 7)`, `years` is
`round(total_seconds / (365.2425 * 24 * 3600))`. -/
def get_remaining_lifespan (date_of_birth : Date) (life_expectancy : ℤ)
    (today : Date) : Option Remaining :=
  match addYearsRelativedelta date_of_birth life_expectancy with
  | none => none
  | some date_of_death =>
    let days : ℤ := dateDiffDays date_of_death today
    some
      { days := days
        weeks := roundHalfEven ((days : ℚ) / 7)
        years := roundHalfEven
          ((days : ℚ) * 86400 / ((3652425 / 10000 : ℚ) * 24 * 3600)) }

/-- `get_days_until_birthday` (src/memento_mori.py:57-86): build this year's
and next year's occurrence of the birth month/day (both are constructed
before the comparison, as in the source), substituting Feb 28 when the birth
month/day is Feb 29; if this year's occurrence is strictly before today the
next birthday is next year's, else this year's; return the day difference. -/
def get_days_until_birthday (date_of_birth today : Date) : Option ℤ :=
  (if ¬(date_of_birth.month = 2 ∧ date_of_birth.day = 29) then
      (mkDate today.year date_of_birth.month date_of_birth.day).bind fun bty =>
        (mkDate (today.year + 1) date_of_birth.month date_of_birth.day).map
          fun bny => (bty, bny)
    else
      (mkDate today.year 2 28).bind fun bty =>
        (mkDate (today.year + 1) 2 28).map fun bny => (bty, bny)).map
    fun p => dateDiffDays (if dateLt p.1 today then p.2 else p.1) today

/-- Python's `format(n, ",")` on an integer: thousands separators. -/
def commaSep (n : ℤ) : String :=
  let s := toString n.natAbs
  let k := s.length
  (if n < 0 then "-" else "") ++
    String.mk ((s.toList.enum).foldr
      (fun p acc =>
        if p.1 + 1 ≠ k ∧ (k - 1 - p.1) % 3 = 0 then p.2 :: ',' :: acc
        else p.2 :: acc) [])

/-- The lines `show_message` emits after the birthday block
(src/memento_mori.py:105-123): the mortality-reflection lines, the
remaining-lifespan block shown only when `age < life_expectancy`, and the
fixed closing pair.  `today` stands for the `date.today()` read on line 108. -/
def show_messageTail (age life_expectancy : ℤ) (today : Date)
    (remaining : Remaining) : List String :=
  let nextYear := today.year + 1
  let ry := remaining.years
  let rw := commaSep remaining.weeks
  let rd := commaSep remaining.days
  ["", s!"\nRemember that every day could be your last.",
    s!"Will you even live to see the year {nextYear}?\n\n"] ++
  (if age < life_expectancy then
      ["", s!"\nImagine that you will die at the age of **{life_expectancy}**.",
        "Which would leave you a remaining lifespan of …",
        s!"\n:red[{ry} years.] That is {rw} weeks, or {rd} days.",
        "How will you spend them?"]
    else []) ++
  ["", s!"\n💀 Memento mori - remember that you will die.",
    s!"🌱 But even more important: :green[**remember to LIVE!**]"]

/-- `show_message` (src/memento_mori.py:89-123) as the list of rendered
lines: the age line, then — under Python's truthiness test
`if days_until_birthday:` — either the "In N days" line (N > 1) or the
"Tomorrow" line, then the tail lines. -/
def show_message (age days_until_birthday life_expectancy : ℤ) (today : Date)
    (remaining : Remaining) : List String :=
  s!"\nToday you are **{age}** years old." ::
    ((if days_until_birthday ≠ 0 then
        if 1 < days_until_birthday then
          [s!"In :red[{days_until_birthday} days] you will turn **{age + 1}**."]
        else [s!":red[Tomorrow] you will turn **{age + 1}**."]
      else []) ++
      show_messageTail age life_expectancy today remaining)

/-! ### Calendar arithmetic lemmas -/

/-- Indicator of a leap year, as a natural number. -/
def leapN (y : ℕ) : ℕ := if isleap y then 1 else 0

lemma isleap_iff (y : ℕ) :
    isleap y = true ↔ (y % 4 = 0 ∧ (y % 100 ≠ 0 ∨ y % 400 = 0)) := by
  simp only [isleap, Bool.and_eq_true, Bool.or_eq_true, beq_iff_eq,
    bne_iff_ne, ne_eq]

lemma leapN_le_one (y : ℕ) : leapN y ≤ 1 := by
  unfold leapN; split <;> omega

lemma isleap_ite (y : ℕ) : (if isleap y then 29 else 28) = 28 + leapN y := by
  unfold leapN; cases isleap y <;> simp

lemma daysInMonth_two (y : ℕ) : daysInMonth y 2 = 28 + leapN y := by
  unfold daysInMonth; exact isleap_ite y

lemma daysBeforeMonth_eq (y m : ℕ) :
    daysBeforeMonth y m =
      daysBeforeMonthBase m + (if 2 < m then leapN y else 0) := by
  unfold daysBeforeMonth leapN
  by_cases h2 : 2 < m <;> cases hl : isleap y <;> simp [h2, hl]

/-- The leap-day correction term of `daysBeforeYear`, over ℤ. -/
def leapTerm (z : ℕ) : ℤ :=
  ((z / 4 : ℕ) : ℤ) - ((z / 100 : ℕ) : ℤ) + ((z / 400 : ℕ) : ℤ)

lemma leapTerm_bounds (z : ℕ) :
    -699 ≤ 400 * leapTerm z - 97 * (z : ℤ) ∧
      400 * leapTerm z - 97 * (z : ℤ) ≤ 396 := by
  unfold leapTerm; omega

lemma daysBeforeYear_eq (y : ℕ) :
    (daysBeforeYear y : ℤ) = 365 * ((y - 1 : ℕ) : ℤ) + leapTerm (y - 1) := by
  unfold daysBeforeYear leapTerm; omega

lemma leapN_eq (y : ℕ) :
    leapN y = if y % 4 = 0 ∧ (y % 100 ≠ 0 ∨ y % 400 = 0) then 1 else 0 := by
  unfold leapN
  by_cases h : y % 4 = 0 ∧ (y % 100 ≠ 0 ∨ y % 400 = 0)
  · rw [if_pos h, if_pos ((isleap_iff y).mpr h)]
  · rw [if_neg h, if_neg (fun hc => h ((isleap_iff y).mp hc))]

lemma daysBeforeYear_succ (y : ℕ) (hy : 1 ≤ y) :
    daysBeforeYear (y + 1) = daysBeforeYear y + 365 + leapN y := by
  have e4 : y / 4 = (y - 1) / 4 + (if y % 4 = 0 then 1 else 0) := by
    split <;> omega
  have e100 : y / 100 = (y - 1) / 100 + (if y % 100 = 0 then 1 else 0) := by
    split <;> omega
  have e400 : y / 400 = (y - 1) / 400 + (if y % 400 = 0 then 1 else 0) := by
    split <;> omega
  have e1 : y + 1 - 1 = y := rfl
  rw [leapN_eq]
  unfold daysBeforeYear
  rw [e1, e4, e100, e400]
  have h14 : (y - 1) / 100 ≤ (y - 1) / 4 := by omega
  split <;> split_ifs at * <;> omega

/-- The Gregorian leap-day count drifts from `97/400` of the elapsed years
by a bounded amount. -/
lemma leapdrift (u v : ℕ) (hu : 1 ≤ u) (huv : u ≤ v) :
    146097 * ((v : ℤ) - u) - 1100 ≤
        400 * ((daysBeforeYear v : ℤ) - daysBeforeYear u) ∧
      400 * ((daysBeforeYear v : ℤ) - daysBeforeYear u) ≤
        146097 * ((v : ℤ) - u) + 1100 := by
  have hb1 := leapTerm_bounds (u - 1)
  have hb2 := leapTerm_bounds (v - 1)
  have hc1 : ((u - 1 : ℕ) : ℤ) = (u : ℤ) - 1 := by omega
  have hc2 : ((v - 1 : ℕ) : ℤ) = (v : ℤ) - 1 := by omega
  rw [daysBeforeYear_eq, daysBeforeYear_eq, hc1, hc2]
  rw [hc1] at hb1
  rw [hc2] at hb2
  constructor <;> linarith

lemma daysBeforeYear_mono {y1 y2 : ℕ} (h : y1 ≤ y2) :
    daysBeforeYear y1 ≤ daysBeforeYear y2 := by
  induction y2, h using Nat.le_induction with
  | base => exact le_rfl
  | succ n hn ih =>
    rcases Nat.eq_zero_or_pos n with h0 | h1
    · subst h0
      have hy1 : y1 = 0 := by omega
      subst hy1
      norm_num [daysBeforeYear]
    · rw [daysBeforeYear_succ n h1]; omega

/-- The day-of-year offset of a valid month/day lies in `[1, 365 + leap]`. -/
lemma monthday_bounds (y m d : ℕ) (hm1 : 1 ≤ m) (hm2 : m ≤ 12)
    (hd1 : 1 ≤ d) (hd2 : d ≤ daysInMonth y m) :
    1 ≤ daysBeforeMonth y m + d ∧ daysBeforeMonth y m + d ≤ 365 + leapN y := by
  have hl := leapN_le_one y
  interval_cases m <;>
    norm_num [daysBeforeMonth_eq, daysBeforeMonthBase, daysInMonth, isleap_ite]
      at hd2 ⊢ <;>
    omega

lemma daysBeforeMonth_step (y m1 m2 : ℕ) (hm1 : 1 ≤ m1) (h12 : m1 < m2)
    (hm2 : m2 ≤ 12) :
    daysBeforeMonth y m1 + daysInMonth y m1 ≤ daysBeforeMonth y m2 := by
  have hl := leapN_le_one y
  have hm1u : m1 ≤ 12 := by omega
  interval_cases m1 <;> interval_cases m2 <;>
    norm_num [daysBeforeMonth_eq, daysBeforeMonthBase, daysInMonth,
      isleap_ite] <;>
    omega

lemma dateLt_trichotomy (a b : Date) : a = b ∨ dateLt a b ∨ dateLt b a := by
  obtain ⟨ya, ma, da⟩ := a
  obtain ⟨yb, mb, db⟩ := b
  simp only [dateLt, Date.mk.injEq]
  omega

lemma dateLt_irrefl (a : Date) : ¬ dateLt a a := by
  obtain ⟨ya, ma, da⟩ := a
  simp only [dateLt]
  omega

/-- `toordinal` is strictly monotone on valid dates with respect to the
lexicographic (Python) order. -/
lemma toordinal_lt_of_dateLt {a b : Date} (ha : isValidDate a)
    (hb : isValidDate b) (h : dateLt a b) : toordinal a < toordinal b := by
  obtain ⟨ya, ma, da⟩ := a
  obtain ⟨yb, mb, db⟩ := b
  obtain ⟨hya, hma1, hma2, hda1, hda2⟩ := ha
  obtain ⟨hyb, hmb1, hmb2, hdb1, hdb2⟩ := hb
  simp only at hya hma1 hma2 hda1 hda2 hyb hmb1 hmb2 hdb1 hdb2
  simp only [dateLt] at h
  unfold toordinal
  simp only
  rcases h with hy | ⟨hy, hm | ⟨hm, hd⟩⟩
  · have hub := (monthday_bounds ya ma da hma1 hma2 hda1 hda2).2
    have hlb := (monthday_bounds yb mb db hmb1 hmb2 hdb1 hdb2).1
    have hs := daysBeforeYear_succ ya hya
    have hmono := daysBeforeYear_mono (show ya + 1 ≤ yb from hy)
    omega
  · subst hy
    have hstep := daysBeforeMonth_step ya ma mb hma1 hm hmb2
    omega
  · subst hy; subst hm
    omega

lemma toordinal_le_of_not_dateLt {a b : Date} (ha : isValidDate a)
    (hb : isValidDate b) (h : ¬ dateLt b a) : toordinal a ≤ toordinal b := by
  rcases dateLt_trichotomy a b with he | hl | hl
  · exact le_of_eq (congrArg toordinal he)
  · exact le_of_lt (toordinal_lt_of_dateLt ha hb hl)
  · exact absurd hl h

lemma toordinal_inj {a b : Date} (ha : isValidDate a) (hb : isValidDate b)
    (h : toordinal a = toordinal b) : a = b := by
  rcases dateLt_trichotomy a b with he | hl | hl
  · exact he
  · exact absurd h (Nat.ne_of_lt (toordinal_lt_of_dateLt ha hb hl))
  · exact absurd h.symm (Nat.ne_of_lt (toordinal_lt_of_dateLt hb ha hl))

/-- Advancing a (year, month, day) triple by one calendar year moves the
ordinal by 365 or 366, the leap day counting for months at or before
February from the starting year and otherwise from the target year. -/
lemma toordinal_year_succ (y m d : ℕ) (hy : 1 ≤ y) (hm1 : 1 ≤ m)
    (hm2 : m ≤ 12) :
    toordinal ⟨y + 1, m, d⟩ =
      toordinal ⟨y, m, d⟩ + 365 +
        (if m ≤ 2 then leapN y else leapN (y + 1)) := by
  unfold toordinal
  simp only
  rw [daysBeforeYear_succ y hy, daysBeforeMonth_eq, daysBeforeMonth_eq]
  by_cases h2 : 2 < m
  · have hn : ¬ m ≤ 2 := by omega
    simp only [if_pos h2, if_neg hn]
    omega
  · have hn : m ≤ 2 := by omega
    simp only [if_neg h2, if_pos hn]
    omega

/-- A valid month/day other than Feb 29 is a valid date in every year. -/
lemma isValidDate_transfer {b : Date} (hb : isValidDate b)
    (hfeb : ¬(b.month = 2 ∧ b.day = 29)) (y : ℕ) (hy : 1 ≤ y) :
    isValidDate ⟨y, b.month, b.day⟩ := by
  obtain ⟨yb, mb, db⟩ := b
  obtain ⟨hyb, hmb1, hmb2, hdb1, hdb2⟩ := hb
  simp only at hyb hmb1 hmb2 hdb1 hdb2 hfeb ⊢
  refine ⟨hy, hmb1, hmb2, hdb1, ?_⟩
  have h2y := daysInMonth_two y
  have h2b := daysInMonth_two yb
  have hly := leapN_le_one y
  have hlb := leapN_le_one yb
  interval_cases mb <;> simp_all [daysInMonth] <;> omega

lemma isValidDate_feb28 (y : ℕ) (hy : 1 ≤ y) : isValidDate ⟨y, 2, 28⟩ := by
  refine ⟨hy, by norm_num, by norm_num, by norm_num, ?_⟩
  have h2 := daysInMonth_two y
  simp only
  omega

lemma toordinal_lb (y m d : ℕ) (h : isValidDate ⟨y, m, d⟩) :
    daysBeforeYear y + 1 ≤ toordinal ⟨y, m, d⟩ := by
  obtain ⟨hy, hm1, hm2, hd1, hd2⟩ := h
  simp only at hy hm1 hm2 hd1 hd2
  have hb := (monthday_bounds y m d hm1 hm2 hd1 hd2).1
  unfold toordinal
  simp only
  omega

lemma toordinal_ub (y m d : ℕ) (h : isValidDate ⟨y, m, d⟩) :
    toordinal ⟨y, m, d⟩ ≤ daysBeforeYear y + 365 + leapN y := by
  obtain ⟨hy, hm1, hm2, hd1, hd2⟩ := h
  simp only at hy hm1 hm2 hd1 hd2
  have hb := (monthday_bounds y m d hm1 hm2 hd1 hd2).2
  unfold toordinal
  simp only
  omega

lemma mkDate_valid (y m d : ℕ) (h : isValidDate ⟨y, m, d⟩) :
    mkDate y m d = some ⟨y, m, d⟩ := by
  rw [mkDate, if_pos h]

/-- The day count from today to the next occurrence of a month/day valid in
this and next year — the core of `get_days_until_birthday` — lies in
`[0, 365]`. -/
lemma nextBirthday_diff_bounds (ty tm td m d : ℕ)
    (ht : isValidDate ⟨ty, tm, td⟩) (hv1 : isValidDate ⟨ty, m, d⟩)
    (hv2 : isValidDate ⟨ty + 1, m, d⟩) :
    0 ≤ dateDiffDays
        (if dateLt ⟨ty, m, d⟩ ⟨ty, tm, td⟩ then ⟨ty + 1, m, d⟩
          else ⟨ty, m, d⟩) ⟨ty, tm, td⟩ ∧
      dateDiffDays
        (if dateLt ⟨ty, m, d⟩ ⟨ty, tm, td⟩ then ⟨ty + 1, m, d⟩
          else ⟨ty, m, d⟩) ⟨ty, tm, td⟩ ≤ 365 := by
  have hty : 1 ≤ ty := ht.1
  have hsucc := daysBeforeYear_succ ty hty
  have hlt := leapN_le_one ty
  have hlt1 := leapN_le_one (ty + 1)
  have htub := toordinal_ub ty tm td ht
  have htlb := toordinal_lb ty tm td ht
  unfold dateDiffDays
  split
  case isTrue hb =>
    have h1 : toordinal ⟨ty, m, d⟩ < toordinal ⟨ty, tm, td⟩ :=
      toordinal_lt_of_dateLt hv1 ht hb
    have h2 := toordinal_lb (ty + 1) m d hv2
    have h3 := toordinal_ub (ty + 1) m d hv2
    have h4 : 1 ≤ m := hv2.2.1
    have h5 : m ≤ 12 := hv2.2.2.1
    have h6 := toordinal_year_succ ty m d hty h4 h5
    have h7 : (if m ≤ 2 then leapN ty else leapN (ty + 1)) ≤ 1 := by
      split
      · exact hlt
      · exact hlt1
    omega
  case isFalse hb =>
    have h1 : toordinal ⟨ty, tm, td⟩ ≤ toordinal ⟨ty, m, d⟩ :=
      toordinal_le_of_not_dateLt ht hv1 hb
    have h2 := toordinal_ub ty m d hv1
    omega

/-! ### Rounding lemmas -/

lemma roundHalfEven_bounds (q : ℚ) :
    q - 1 / 2 ≤ (roundHalfEven q : ℚ) ∧ (roundHalfEven q : ℚ) ≤ q + 1 / 2 := by
  have hf1 := Int.floor_le q
  have hf2 := Int.lt_floor_add_one q
  unfold roundHalfEven
  split_ifs <;> constructor <;> push_cast <;> linarith

lemma roundHalfEven_eq_floor (q : ℚ) (h : ∀ k : ℤ, q ≠ k + 1 / 2) :
    roundHalfEven q = ⌊q + 1 / 2⌋ := by
  have hf1 := Int.floor_le q
  have hf2 := Int.lt_floor_add_one q
  unfold roundHalfEven
  split_ifs with h1 h2 h3
  · refine (Int.floor_eq_iff.mpr ⟨by push_cast; linarith, ?_⟩).symm
    linarith
  · refine (Int.floor_eq_iff.mpr ⟨by push_cast; linarith, ?_⟩).symm
    push_cast
    linarith
  · exact absurd (show q = ⌊q⌋ + 1 / 2 by linarith) (h ⌊q⌋)
  · exact absurd (show q = ⌊q⌋ + 1 / 2 by linarith) (h ⌊q⌋)

lemma roundHalfEven_zero : roundHalfEven 0 = 0 := by
  unfold roundHalfEven
  norm_num

/-- The argument fed to `round` in the age and remaining-years computations
is `days * 400 / 146097` in lowest structure; with its odd denominator it is
never an exact half, so round-half-to-even never meets its tie case there. -/
lemma mean_year_arg_not_half (D k : ℤ) :
    ((D * 400 : ℤ) : ℚ) / 146097 ≠ k + 1 / 2 := by
  intro hk
  have h2 : (D * 800 : ℚ) = 292194 * k + 146097 := by
    field_simp at hk
    linarith
  have h3 : (D * 800 : ℤ) = 292194 * k + 146097 := by exact_mod_cast h2
  omega

/-- `days * 86400 / (365.2425 * 24 * 3600)` as an exact rational equals
`days * 400 / 146097`. -/
lemma seconds_ratio_eq (D : ℤ) :
    (D : ℚ) * 86400 / ((3652425 / 10000 : ℚ) * 24 * 3600) =
      ((D * 400 : ℤ) : ℚ) / 146097 := by
  rw [div_eq_div_iff (by norm_num) (by norm_num)]
  push_cast
  ring

lemma roundHalfEven_mean_year_mono {D1 D2 : ℤ} (h : D1 ≤ D2) :
    roundHalfEven (((D1 * 400 : ℤ) : ℚ) / 146097) ≤
      roundHalfEven (((D2 * 400 : ℤ) : ℚ) / 146097) := by
  rw [roundHalfEven_eq_floor _ (mean_year_arg_not_half D1),
    roundHalfEven_eq_floor _ (mean_year_arg_not_half D2)]
  apply Int.floor_le_floor
  have hq : ((D1 * 400 : ℤ) : ℚ) / 146097 ≤ ((D2 * 400 : ℤ) : ℚ) / 146097 := by
    apply div_le_div_of_nonneg_right ?_ (by norm_num)
    push_cast
    exact mul_le_mul_of_nonneg_right (by exact_mod_cast h) (by norm_num)
  linarith

lemma daysInMonth_bounds (y m : ℕ) :
    28 ≤ daysInMonth y m ∧ daysInMonth y m ≤ 31 := by
  unfold daysInMonth
  split <;> first | (split <;> omega) | omega

/-- Advancing a valid date by `N ≥ 1` calendar years (`relativedelta`
semantics) succeeds, yields a valid date, and moves the ordinal by `N` mean
Gregorian years (`146097/400` days) up to a drift of at most `2700/400`
days. -/
lemma addYears_span (b : Date) (hb : isValidDate b) (N : ℤ) (hN : 1 ≤ N) :
    ∃ dod, addYearsRelativedelta b N = some dod ∧ isValidDate dod ∧
      146097 * N - 2700 ≤ 400 * dateDiffDays dod b ∧
      400 * dateDiffDays dod b ≤ 146097 * N + 2700 := by
  obtain ⟨yb, m, d⟩ := b
  obtain ⟨hyb, hm1, hm2, hd1, hd2⟩ := hb
  simp only at hyb hm1 hm2 hd1 hd2
  have hy : 1 ≤ (yb : ℤ) + N := by omega
  refine ⟨_, by rw [addYearsRelativedelta, if_pos hy], ?_, ?_, ?_⟩
  · have hdim := daysInMonth_bounds ((yb : ℤ) + N).toNat m
    refine ⟨?_, hm1, hm2, ?_, ?_⟩
    · show 1 ≤ ((yb : ℤ) + N).toNat
      omega
    · show 1 ≤ min d (daysInMonth ((yb : ℤ) + N).toNat m)
      omega
    · show min d (daysInMonth ((yb : ℤ) + N).toNat m) ≤
        daysInMonth ((yb : ℤ) + N).toNat m
      exact min_le_right _ _
  all_goals
    set yn : ℕ := ((yb : ℤ) + N).toNat with hyn
    have hcast : (yn : ℤ) = (yb : ℤ) + N := Int.toNat_of_nonneg (by omega)
    have hle : yb ≤ yn := by omega
    have hdrift := leapdrift yb yn hyb hle
    have hdimn := daysInMonth_bounds yn m
    have hdimb := daysInMonth_bounds yb m
    have hlb := leapN_le_one yb
    have hln := leapN_le_one yn
    have hdbmb := daysBeforeMonth_eq yb m
    have hdbmn := daysBeforeMonth_eq yn m
    unfold dateDiffDays toordinal
    simp only
    rw [hdbmb, hdbmn]
    by_cases h2 : 2 < m
    · rw [if_pos h2, if_pos h2] at *
      omega
    · rw [if_neg h2, if_neg h2] at *
      omega

lemma get_days_until_birthday_eq_nonfeb (b t : Date)
    (hfeb : ¬(b.month = 2 ∧ b.day = 29))
    (hv1 : isValidDate ⟨t.year, b.month, b.day⟩)
    (hv2 : isValidDate ⟨t.year + 1, b.month, b.day⟩) :
    get_days_until_birthday b t =
      some (dateDiffDays
        (if dateLt ⟨t.year, b.month, b.day⟩ t then ⟨t.year + 1, b.month, b.day⟩
          else ⟨t.year, b.month, b.day⟩) t) := by
  unfold get_days_until_birthday
  rw [if_pos hfeb, mkDate_valid _ _ _ hv1, mkDate_valid _ _ _ hv2]
  rfl

lemma get_days_until_birthday_eq_feb (b t : Date)
    (hfeb : b.month = 2 ∧ b.day = 29) (hty : 1 ≤ t.year) :
    get_days_until_birthday b t =
      some (dateDiffDays
        (if dateLt ⟨t.year, 2, 28⟩ t then ⟨t.year + 1, 2, 28⟩
          else ⟨t.year, 2, 28⟩) t) := by
  unfold get_days_until_birthday
  rw [if_neg (not_not_intro hfeb),
    mkDate_valid _ _ _ (isValidDate_feb28 t.year hty),
    mkDate_valid _ _ _ (isValidDate_feb28 (t.year + 1) (by omega))]
  rfl

lemma get_age_eq (b t : Date) :
    get_age b t =
      roundHalfEven (((dateDiffDays t b * 400 : ℤ) : ℚ) / 146097) := by
  unfold get_age
  rw [seconds_ratio_eq]

lemma get_remaining_lifespan_eq (b t dod : Date) (le : ℤ)
    (h : addYearsRelativedelta b le = some dod) :
    get_remaining_lifespan b le t =
      some
        { days := dateDiffDays dod t
          weeks := roundHalfEven ((dateDiffDays dod t : ℚ) / 7)
          years := roundHalfEven
            (((dateDiffDays dod t * 400 : ℤ) : ℚ) / 146097) } := by
  unfold get_remaining_lifespan
  rw [h]
  dsimp only
  rw [seconds_ratio_eq]

lemma addYears_some (b : Date) (n : ℤ) (h : 1 ≤ (b.year : ℤ) + n) :
    addYearsRelativedelta b n =
      some ⟨((b.year : ℤ) + n).toNat, b.month,
        min b.day (daysInMonth ((b.year : ℤ) + n).toNat b.month)⟩ := by
  rw [addYearsRelativedelta, if_pos h]

/-! ### Claim theorems -/

/-- C3: for every birth date not later than today (both valid calendar
dates), `get_days_until_birthday` returns an integer `n` with
`0 ≤ n < 366`. -/
theorem days_until_birthday_range (b t : Date) (hb : isValidDate b)
    (ht : isValidDate t) (hbt : ¬ dateLt t b) :
    ∃ n, get_days_until_birthday b t = some n ∧ 0 ≤ n ∧ n < 366 := by
  obtain ⟨ty, tm, td⟩ := t
  have hty : 1 ≤ ty := ht.1
  by_cases hfeb : b.month = 2 ∧ b.day = 29
  · rw [get_days_until_birthday_eq_feb b ⟨ty, tm, td⟩ hfeb hty]
    dsimp only
    have hv1 := isValidDate_feb28 ty hty
    have hv2 := isValidDate_feb28 (ty + 1) (by omega)
    have hbd := nextBirthday_diff_bounds ty tm td 2 28 ht hv1 hv2
    exact ⟨_, rfl, hbd.1, by have := hbd.2; omega⟩
  · have hv1 := isValidDate_transfer hb hfeb ty hty
    have hv2 := isValidDate_transfer hb hfeb (ty + 1) (by omega)
    rw [get_days_until_birthday_eq_nonfeb b ⟨ty, tm, td⟩ hfeb hv1 hv2]
    dsimp only
    have hbd := nextBirthday_diff_bounds ty tm td b.month b.day ht hv1 hv2
    exact ⟨_, rfl, hbd.1, by have := hbd.2; omega⟩

/-- Witness for C3 at the spec's own scenario: birth 1990-06-15,
today 2024-06-15. -/
theorem days_until_birthday_range_witness :
    ∃ n, get_days_until_birthday ⟨1990, 6, 15⟩ ⟨2024, 6, 15⟩ = some n ∧
      0 ≤ n ∧ n < 366 :=
  days_until_birthday_range ⟨1990, 6, 15⟩ ⟨2024, 6, 15⟩ (by decide) (by decide)
    (by decide)

/-- C4 counterexample: for a Feb 29 birth date with today equal to the
birth date (2024-02-29), `get_days_until_birthday` returns 365, not 0: the
Feb 28 substitute for this year is strictly before today, so the code picks
next year's Feb 28. -/
theorem birthday_equal_today_counterexample :
    get_days_until_birthday ⟨2024, 2, 29⟩ ⟨2024, 2, 29⟩ = some 365 ∧
      get_days_until_birthday ⟨2024, 2, 29⟩ ⟨2024, 2, 29⟩ ≠ some 0 := by
  constructor
  · decide
  · decide

/-- C4 (amended): when the birth date equals today, `get_age` returns 0;
and `get_days_until_birthday` returns 0 provided the date's month/day is
not Feb 29 (for a Feb 29 date it returns 365 instead). -/
theorem birthday_equal_today (d : Date) (hv : isValidDate d) :
    get_age d d = 0 ∧
      (¬(d.month = 2 ∧ d.day = 29) →
        get_days_until_birthday d d = some 0) := by
  obtain ⟨dy, dm, dd⟩ := d
  constructor
  · have h0 : dateDiffDays ⟨dy, dm, dd⟩ ⟨dy, dm, dd⟩ = 0 := sub_self _
    have harg : ((dateDiffDays ⟨dy, dm, dd⟩ ⟨dy, dm, dd⟩ * 400 : ℤ) : ℚ)
        / 146097 = 0 := by
      rw [h0]; norm_num
    rw [get_age_eq, harg]
    exact roundHalfEven_zero
  · intro hfeb
    have hty : 1 ≤ dy := hv.1
    have hv2 := isValidDate_transfer hv hfeb (dy + 1) (by omega)
    rw [get_days_until_birthday_eq_nonfeb ⟨dy, dm, dd⟩ ⟨dy, dm, dd⟩ hfeb hv
      hv2]
    rw [if_neg (dateLt_irrefl _)]
    rw [show dateDiffDays ⟨dy, dm, dd⟩ ⟨dy, dm, dd⟩ = 0 from sub_self _]

/-- Witness for the amended C4 at birth = today = 1990-06-15 (and the
Feb 29 hypothesis instantiated away). -/
theorem birthday_equal_today_witness :
    get_age ⟨1990, 6, 15⟩ ⟨1990, 6, 15⟩ = 0 ∧
      (¬((⟨1990, 6, 15⟩ : Date).month = 2 ∧ (⟨1990, 6, 15⟩ : Date).day = 29) →
        get_days_until_birthday ⟨1990, 6, 15⟩ ⟨1990, 6, 15⟩ = some 0) :=
  birthday_equal_today ⟨1990, 6, 15⟩ (by decide)

/-- C5: for a Feb 29 birth date, `get_days_until_birthday` and
`get_remaining_lifespan` (with positive life expectancy) complete without
error — the code substitutes Feb 28 where Feb 29 would be invalid. -/
theorem feb29_no_error (b t : Date) (hb : isValidDate b) (hm : b.month = 2)
    (hd : b.day = 29) (ht : isValidDate t) (le : ℤ) (hle : 1 ≤ le) :
    (get_days_until_birthday b t).isSome ∧
      (get_remaining_lifespan b le t).isSome := by
  constructor
  · rw [get_days_until_birthday_eq_feb b t ⟨hm, hd⟩ ht.1]
    rfl
  · have hy : 1 ≤ (b.year : ℤ) + le := by
      have := hb.1
      omega
    rw [get_remaining_lifespan_eq b t _ le (addYears_some b le hy)]
    rfl

/-- Witness for C5 at birth 2000-02-29, today 2023-07-01 (a non-leap
year), life expectancy 80. -/
theorem feb29_no_error_witness :
    (get_days_until_birthday ⟨2000, 2, 29⟩ ⟨2023, 7, 1⟩).isSome ∧
      (get_remaining_lifespan ⟨2000, 2, 29⟩ 80 ⟨2023, 7, 1⟩).isSome :=
  feb29_no_error ⟨2000, 2, 29⟩ ⟨2023, 7, 1⟩ (by decide) (by decide) (by decide)
    (by decide) 80 (by decide)

/-- C10: for a Feb 29 birth date, `get_days_until_birthday` returns 0
exactly when today is a Feb 28; on Feb 29 itself (a leap-year today) it
returns 365. -/
theorem feb29_birthday_zero_iff (b t : Date) (hb : isValidDate b)
    (hm : b.month = 2) (hd : b.day = 29) (ht : isValidDate t) :
    (get_days_until_birthday b t = some 0 ↔ t.month = 2 ∧ t.day = 28) ∧
      (t.month = 2 → t.day = 29 → get_days_until_birthday b t = some 365) := by
  obtain ⟨ty, tm, td⟩ := t
  obtain ⟨hty, htm1, htm2, htd1, htd2⟩ := ht
  simp only at hty htm1 htm2 htd1 htd2
  have ht' : isValidDate ⟨ty, tm, td⟩ := ⟨hty, htm1, htm2, htd1, htd2⟩
  rw [get_days_until_birthday_eq_feb b ⟨ty, tm, td⟩ ⟨hm, hd⟩ hty]
  have hv28 := isValidDate_feb28 ty hty
  have hv28' := isValidDate_feb28 (ty + 1) (by omega)
  constructor
  · constructor
    · intro h0
      simp only [Option.some.injEq] at h0
      by_cases hlt : dateLt ⟨ty, 2, 28⟩ ⟨ty, tm, td⟩
      · rw [if_pos hlt] at h0
        have heq : toordinal ⟨ty + 1, 2, 28⟩ = toordinal ⟨ty, tm, td⟩ := by
          unfold dateDiffDays at h0
          omega
        have hinj := toordinal_inj hv28' ht' heq
        have : ty + 1 = ty := congrArg Date.year hinj
        omega
      · rw [if_neg hlt] at h0
        have heq : toordinal ⟨ty, 2, 28⟩ = toordinal ⟨ty, tm, td⟩ := by
          unfold dateDiffDays at h0
          omega
        have hinj := toordinal_inj hv28 ht' heq
        exact ⟨(congrArg Date.month hinj).symm, (congrArg Date.day hinj).symm⟩
    · rintro ⟨h2, h28⟩
      simp only at h2 h28
      subst h2
      subst h28
      rw [if_neg (dateLt_irrefl _)]
      rw [show dateDiffDays ⟨ty, 2, 28⟩ ⟨ty, 2, 28⟩ = 0 from sub_self _]
  · intro h2 h29
    simp only at h2 h29
    subst h2
    subst h29
    have hdim2 := daysInMonth_two ty
    have hlle := leapN_le_one ty
    have hl : leapN ty = 1 := by omega
    have hlt : dateLt ⟨ty, 2, 28⟩ ⟨ty, 2, 29⟩ := by
      simp [dateLt]
    rw [if_pos hlt]
    have hys := toordinal_year_succ ty 2 28 hty (by norm_num) (by norm_num)
    rw [if_pos (by norm_num : (2 : ℕ) ≤ 2)] at hys
    have hord : toordinal ⟨ty, 2, 29⟩ = toordinal ⟨ty, 2, 28⟩ + 1 := by
      show daysBeforeYear ty + daysBeforeMonth ty 2 + 29 =
        daysBeforeYear ty + daysBeforeMonth ty 2 + 28 + 1
      omega
    have hdiff : dateDiffDays ⟨ty + 1, 2, 28⟩ ⟨ty, 2, 29⟩ = 365 := by
      unfold dateDiffDays
      omega
    rw [hdiff]

/-- Witness for C10 at birth 2000-02-29, today 2024-03-05. -/
theorem feb29_birthday_zero_iff_witness :
    (get_days_until_birthday ⟨2000, 2, 29⟩ ⟨2024, 3, 5⟩ = some 0 ↔
        (⟨2024, 3, 5⟩ : Date).month = 2 ∧ (⟨2024, 3, 5⟩ : Date).day = 28) ∧
      ((⟨2024, 3, 5⟩ : Date).month = 2 → (⟨2024, 3, 5⟩ : Date).day = 29 →
        get_days_until_birthday ⟨2000, 2, 29⟩ ⟨2024, 3, 5⟩ = some 365) :=
  feb29_birthday_zero_iff ⟨2000, 2, 29⟩ ⟨2024, 3, 5⟩ (by decide) (by decide)
    (by decide) (by decide)

/-! ### Closed-form evaluation of the rounded quantities
(`⌊·⌋` on `ℚ` does not reduce in the kernel, so concrete computations are
routed through integer division). -/

lemma div7_not_half (D k : ℤ) : (D : ℚ) / 7 ≠ k + 1 / 2 := by
  intro hk
  have h2 : (D * 2 : ℚ) = 14 * k + 7 := by
    field_simp at hk
    linarith
  have h3 : (D * 2 : ℤ) = 14 * k + 7 := by exact_mod_cast h2
  omega

lemma roundHalfEven_weeks_eval (D : ℤ) :
    roundHalfEven ((D : ℚ) / 7) = (2 * D + 7) / 14 := by
  rw [roundHalfEven_eq_floor _ (div7_not_half D)]
  have harg : (D : ℚ) / 7 + 1 / 2 = ((2 * D + 7 : ℤ) : ℚ) / ((14 : ℕ) : ℚ) := by
    push_cast
    ring
  rw [harg, Rat.floor_intCast_div_natCast]
  norm_num

lemma roundHalfEven_years_eval (D : ℤ) :
    roundHalfEven (((D * 400 : ℤ) : ℚ) / 146097) =
      (800 * D + 146097) / 292194 := by
  rw [roundHalfEven_eq_floor _ (mean_year_arg_not_half D)]
  have harg : ((D * 400 : ℤ) : ℚ) / 146097 + 1 / 2 =
      ((800 * D + 146097 : ℤ) : ℚ) / ((292194 : ℕ) : ℚ) := by
    push_cast
    ring
  rw [harg, Rat.floor_intCast_div_natCast]
  norm_num

lemma get_age_eval (b t : Date) :
    get_age b t = (800 * dateDiffDays t b + 146097) / 292194 := by
  rw [get_age_eq, roundHalfEven_years_eval]

lemma get_remaining_lifespan_eval (b t dod : Date) (le : ℤ)
    (h : addYearsRelativedelta b le = some dod) :
    get_remaining_lifespan b le t =
      some
        { days := dateDiffDays dod t
          weeks := (2 * dateDiffDays dod t + 7) / 14
          years := (800 * dateDiffDays dod t + 146097) / 292194 } := by
  rw [get_remaining_lifespan_eq b t dod le h, roundHalfEven_weeks_eval,
    roundHalfEven_years_eval]

/-- C1 counterexample: with birth 2000-02-29, life expectancy 80 and today
2024-03-01, the code's projected date of death is 2080-02-29 — the year
2080 IS a leap year (divisible by 4, not by 100), so no Feb 28 fallback
occurs — and the days field is 20453, whereas the whole-day count to
2080-02-28 (the claim's projected date) is 20452. -/
theorem remaining_feb29_2080_counterexample :
    get_remaining_lifespan ⟨2000, 2, 29⟩ 80 ⟨2024, 3, 1⟩ =
        some { days := 20453, weeks := 2922, years := 56 } ∧
      dateDiffDays ⟨2080, 2, 28⟩ ⟨2024, 3, 1⟩ = 20452 ∧
      addYearsRelativedelta ⟨2000, 2, 29⟩ 80 ≠ some ⟨2080, 2, 28⟩ := by
  refine ⟨?_, by decide, by decide⟩
  rw [get_remaining_lifespan_eval ⟨2000, 2, 29⟩ ⟨2024, 3, 1⟩ ⟨2080, 2, 29⟩ 80
    (by decide)]
  decide

/-- C1 (amended): for birth 2000-02-29, life expectancy 80, today
2024-03-01, the projected date of death is 2080-02-29 (2080 is a leap year,
so the birth day is kept), and the days field is the whole-day count from
today to that date, 20453. -/
theorem remaining_feb29_2080_amended :
    addYearsRelativedelta ⟨2000, 2, 29⟩ 80 = some ⟨2080, 2, 29⟩ ∧
      get_remaining_lifespan ⟨2000, 2, 29⟩ 80 ⟨2024, 3, 1⟩ =
        some { days := dateDiffDays ⟨2080, 2, 29⟩ ⟨2024, 3, 1⟩
               weeks := 2922
               years := 56 } ∧
      dateDiffDays ⟨2080, 2, 29⟩ ⟨2024, 3, 1⟩ = 20453 := by
  refine ⟨by decide, ?_, by decide⟩
  rw [get_remaining_lifespan_eval ⟨2000, 2, 29⟩ ⟨2024, 3, 1⟩ ⟨2080, 2, 29⟩ 80
    (by decide)]
  decide

/-- C2 counterexample: called with life expectancy 0 (≤ 0), birth
2000-01-01 and today 2024-06-15, `get_remaining_lifespan` does not reject
the call: it returns a result whose durations are negative. -/
theorem lifespan_nonpositive_counterexample :
    get_remaining_lifespan ⟨2000, 1, 1⟩ 0 ⟨2024, 6, 15⟩ =
        some { days := -8932, weeks := -1276, years := -24 } ∧
      (-8932 : ℤ) < 0 := by
  refine ⟨?_, by norm_num⟩
  rw [get_remaining_lifespan_eval ⟨2000, 1, 1⟩ ⟨2024, 6, 15⟩ ⟨2000, 1, 1⟩ 0
    (by decide)]
  decide

/-- C2 (amended): the calculator performs no validation of
`life_expectancy`. For every life expectancy ≤ 0 (kept above Python's year
lower bound) and birth date strictly before today, it returns a result with
a negative days field instead of failing. -/
theorem lifespan_nonpositive_accepted (b t : Date) (hb : isValidDate b)
    (ht : isValidDate t) (hbt : dateLt b t) (le : ℤ) (hle : le ≤ 0)
    (hy : 1 ≤ (b.year : ℤ) + le) :
    ∃ r, get_remaining_lifespan b le t = some r ∧ r.days < 0 := by
  obtain ⟨yb, mb, db⟩ := b
  obtain ⟨hyb, hm1, hm2, hd1, hd2⟩ := hb
  simp only at hyb hm1 hm2 hd1 hd2 hy
  have hb' : isValidDate ⟨yb, mb, db⟩ := ⟨hyb, hm1, hm2, hd1, hd2⟩
  have hsome := addYears_some ⟨yb, mb, db⟩ le hy
  refine ⟨_, get_remaining_lifespan_eq _ t _ le hsome, ?_⟩
  dsimp only
  have hordt := toordinal_lt_of_dateLt hb' ht hbt
  have hdim := daysInMonth_bounds ((yb : ℤ) + le).toNat mb
  have hord2 : toordinal ⟨((yb : ℤ) + le).toNat, mb,
      min db (daysInMonth ((yb : ℤ) + le).toNat mb)⟩ ≤
      toordinal ⟨yb, mb, db⟩ := by
    have hvd : isValidDate ⟨((yb : ℤ) + le).toNat, mb,
        min db (daysInMonth ((yb : ℤ) + le).toNat mb)⟩ := by
      refine ⟨?_, hm1, hm2, ?_, ?_⟩
      · show 1 ≤ ((yb : ℤ) + le).toNat
        omega
      · show 1 ≤ min db (daysInMonth ((yb : ℤ) + le).toNat mb)
        omega
      · show min db (daysInMonth ((yb : ℤ) + le).toNat mb) ≤
          daysInMonth ((yb : ℤ) + le).toNat mb
        exact min_le_right _ _
    rcases Nat.lt_or_ge ((yb : ℤ) + le).toNat yb with hlt | hge
    · exact le_of_lt (toordinal_lt_of_dateLt hvd hb' (Or.inl hlt))
    · have heq : ((yb : ℤ) + le).toNat = yb := by omega
      rw [heq, min_eq_left hd2]
  unfold dateDiffDays at *
  omega

/-- Witness for the amended C2 at birth 2000-01-01, today 2024-06-15,
life expectancy 0. -/
theorem lifespan_nonpositive_accepted_witness :
    ∃ r, get_remaining_lifespan ⟨2000, 1, 1⟩ 0 ⟨2024, 6, 15⟩ = some r ∧
      r.days < 0 :=
  lifespan_nonpositive_accepted ⟨2000, 1, 1⟩ ⟨2024, 6, 15⟩ (by decide)
    (by decide) (by decide) 0 (by decide) (by decide)

/-- C6: for a valid birth date not later than today and a positive life
expectancy `N`, the years field of the remaining lifespan differs from
`N - get_age` by at most 1. -/
theorem remaining_years_vs_age (b t : Date) (hb : isValidDate b)
    (ht : isValidDate t) (hbt : ¬ dateLt t b) (N : ℤ) (hN : 1 ≤ N)
    (r : Remaining) (hr : get_remaining_lifespan b N t = some r) :
    |r.years - (N - get_age b t)| ≤ 1 := by
  obtain ⟨dod, hdod, hvdod, hs1, hs2⟩ := addYears_span b hb N hN
  rw [get_remaining_lifespan_eq b t dod N hdod] at hr
  simp only [Option.some.injEq] at hr
  subst hr
  rw [get_age_eq]
  dsimp only
  have hS : dateDiffDays dod b = dateDiffDays t b + dateDiffDays dod t := by
    unfold dateDiffDays
    ring
  rw [hS] at hs1 hs2
  have hA := roundHalfEven_bounds (((dateDiffDays t b * 400 : ℤ) : ℚ) / 146097)
  have hY := roundHalfEven_bounds
    (((dateDiffDays dod t * 400 : ℤ) : ℚ) / 146097)
  set DA := dateDiffDays t b with hDA
  set DR := dateDiffDays dod t with hDR
  set A := roundHalfEven (((DA * 400 : ℤ) : ℚ) / 146097) with hA'
  set Y := roundHalfEven (((DR * 400 : ℤ) : ℚ) / 146097) with hY'
  have hkey : (((DA * 400 : ℤ) : ℚ) / 146097) * 146097 +
      (((DR * 400 : ℤ) : ℚ) / 146097) * 146097 =
      400 * ((DA : ℚ) + (DR : ℚ)) := by
    rw [div_mul_cancel₀ _ (by norm_num : (146097 : ℚ) ≠ 0),
      div_mul_cancel₀ _ (by norm_num : (146097 : ℚ) ≠ 0)]
    push_cast
    ring
  have hq1 : (146097 * (N : ℚ) - 2700) ≤ 400 * ((DA : ℚ) + (DR : ℚ)) := by
    exact_mod_cast hs1
  have hq2 : 400 * ((DA : ℚ) + (DR : ℚ)) ≤ 146097 * (N : ℚ) + 2700 := by
    exact_mod_cast hs2
  have h1 : (-2 : ℚ) < (Y : ℚ) + (A : ℚ) - (N : ℚ) := by linarith
  have h2 : (Y : ℚ) + (A : ℚ) - (N : ℚ) < 2 := by linarith
  have h1' : -2 < Y + A - N := by exact_mod_cast h1
  have h2' : Y + A - N < 2 := by exact_mod_cast h2
  rw [abs_le]
  omega

/-- Witness for C6 at birth 1990-06-15, today 2024-06-15, life
expectancy 80 (remaining years 46, age 34, 46 = 80 − 34). -/
theorem remaining_years_vs_age_witness :
    |(⟨16801, 2400, 46⟩ : Remaining).years -
        (80 - get_age ⟨1990, 6, 15⟩ ⟨2024, 6, 15⟩)| ≤ 1 :=
  remaining_years_vs_age ⟨1990, 6, 15⟩ ⟨2024, 6, 15⟩ (by decide) (by decide)
    (by decide) 80 (by decide) ⟨16801, 2400, 46⟩
    (by
      rw [get_remaining_lifespan_eval ⟨1990, 6, 15⟩ ⟨2024, 6, 15⟩
        ⟨2070, 6, 15⟩ 80 (by decide)]
      decide)

/-- C7: holding today fixed, `get_age` is non-decreasing as the birth date
moves earlier: an earlier valid birth date gives an age at least as
large. -/
theorem age_antitone (b1 b2 t : Date) (h1 : isValidDate b1)
    (h2 : isValidDate b2) (h12 : dateLt b1 b2) (ht1 : ¬ dateLt t b1)
    (ht2 : ¬ dateLt t b2) : get_age b2 t ≤ get_age b1 t := by
  rw [get_age_eq, get_age_eq]
  apply roundHalfEven_mean_year_mono
  have := toordinal_lt_of_dateLt h1 h2 h12
  unfold dateDiffDays
  omega

/-- Witness for C7 at birth dates 1980-01-01 < 1990-06-15, today
2024-06-15. -/
theorem age_antitone_witness :
    get_age ⟨1990, 6, 15⟩ ⟨2024, 6, 15⟩ ≤ get_age ⟨1980, 1, 1⟩ ⟨2024, 6, 15⟩ :=
  age_antitone ⟨1980, 1, 1⟩ ⟨1990, 6, 15⟩ ⟨2024, 6, 15⟩ (by decide) (by decide)
    (by decide) (by decide) (by decide)

/-- C9: in every result of `get_remaining_lifespan`, the independently
rounded fields satisfy `|days − 7·weeks| ≤ 3`, since weeks is days/7
rounded to nearest. -/
theorem days_weeks_close (b t : Date) (le : ℤ) (r : Remaining)
    (hr : get_remaining_lifespan b le t = some r) :
    |r.days - 7 * r.weeks| ≤ 3 := by
  unfold get_remaining_lifespan at hr
  cases hadd : addYearsRelativedelta b le with
  | none =>
    rw [hadd] at hr
    exact absurd hr (by simp)
  | some dod =>
    rw [hadd] at hr
    simp only [Option.some.injEq] at hr
    subst hr
    dsimp only
    have hbnd := roundHalfEven_bounds ((dateDiffDays dod t : ℚ) / 7)
    set D := dateDiffDays dod t with hD
    set w := roundHalfEven ((D : ℚ) / 7) with hw
    have hq1 : ((D - 7 * w : ℤ) : ℚ) ≤ 7 / 2 := by
      push_cast
      linarith
    have hq2 : (-(7 / 2) : ℚ) ≤ ((D - 7 * w : ℤ) : ℚ) := by
      push_cast
      linarith
    have h1 : ((D - 7 * w : ℤ) : ℚ) < 4 := lt_of_le_of_lt hq1 (by norm_num)
    have h2 : (-4 : ℚ) < ((D - 7 * w : ℤ) : ℚ) :=
      lt_of_lt_of_le (by norm_num) hq2
    have h1' : D - 7 * w < 4 := by exact_mod_cast h1
    have h2' : -4 < D - 7 * w := by exact_mod_cast h2
    rw [abs_le]
    omega

/-- Witness for C9 at birth 1990-06-15, today 2024-06-15, life
expectancy 80. -/
theorem days_weeks_close_witness :
    |(⟨16801, 2400, 46⟩ : Remaining).days -
        7 * (⟨16801, 2400, 46⟩ : Remaining).weeks| ≤ 3 :=
  days_weeks_close ⟨1990, 6, 15⟩ ⟨2024, 6, 15⟩ 80 ⟨16801, 2400, 46⟩
    (by
      rw [get_remaining_lifespan_eval ⟨1990, 6, 15⟩ ⟨2024, 6, 15⟩
        ⟨2070, 6, 15⟩ 80 (by decide)]
      decide)

/-- C8: over the domain of `DaysUntilBirthday` (non-negative integers),
`show_message` emits a "you will turn age+1" line iff
`days_until_birthday > 0`: the "In N days" wording when N > 1, the
"Tomorrow" wording when N = 1, and no such line when N = 0. -/
theorem show_message_turn_line (age days_until_birthday life_expectancy : ℤ)
    (today : Date) (remaining : Remaining) (h : 0 ≤ days_until_birthday) :
    show_message age days_until_birthday life_expectancy today remaining =
      s!"\nToday you are **{age}** years old." ::
        ((if 1 < days_until_birthday then
            [s!"In :red[{days_until_birthday} days] you will turn **{age + 1}**."]
          else if days_until_birthday = 1 then
            [s!":red[Tomorrow] you will turn **{age + 1}**."]
          else []) ++
          show_messageTail age life_expectancy today remaining) := by
  unfold show_message
  congr 1
  congr 1
  split_ifs <;> first | rfl | (exfalso; omega)

/-- Witness for C8 at age 30, 5 days until the birthday. -/
theorem show_message_turn_line_witness :
    show_message 30 5 80 ⟨2024, 1, 1⟩ ⟨16801, 2400, 46⟩ =
      "\nToday you are **30** years old." ::
        (["In :red[5 days] you will turn **31**."] ++
          show_messageTail 30 80 ⟨2024, 1, 1⟩ ⟨16801, 2400, 46⟩) :=
  show_message_turn_line 30 5 80 ⟨2024, 1, 1⟩ ⟨16801, 2400, 46⟩ (by decide)

end MementoMori
